import Mathlib

/-!
Verification of the TvOverlay Home Assistant integration
(custom_components/tvoverlay_ui) against its specification.

Python strings are modelled as lists of Unicode codepoints (List Nat);
Python's ASCII case mapping, whitespace stripping and string operations are
embedded as pure functions on such lists.  The async HTTP client is embedded
by passing the outcome of the network interaction (response status / timeout /
transport error) as an explicit oracle value, and exceptions as Except.
-/

namespace TvOverlay

/-- Python strings, modelled as lists of Unicode codepoints. -/
abbrev PyStr := List Nat

/-- Codepoints of a Lean string literal, for writing concrete Python strings. -/
def pyStr (s : String) : PyStr := s.toList.map Char.toNat

/-- Model of Python whitespace (ASCII range) used by str.strip(). -/
def pyIsSpace (c : Nat) : Bool :=
  decide (c = 32 ∨ c = 9 ∨ c = 10 ∨ c = 11 ∨ c = 12 ∨ c = 13)

/-- Model of Python str.strip(): drop whitespace from both ends. -/
def pyStrip (s : PyStr) : PyStr :=
  ((s.dropWhile pyIsSpace).reverse.dropWhile pyIsSpace).reverse

/-- ASCII lower-casing of one codepoint (model of Python str.lower per char). -/
def pyLowerChar (c : Nat) : Nat := if 65 ≤ c ∧ c ≤ 90 then c + 32 else c

/-- ASCII upper-casing of one codepoint (model of Python str.upper per char). -/
def pyUpperChar (c : Nat) : Nat := if 97 ≤ c ∧ c ≤ 122 then c - 32 else c

/-- Model of Python str.lower(). -/
def pyLower (s : PyStr) : PyStr := s.map pyLowerChar

/-- Model of Python str.upper(). -/
def pyUpper (s : PyStr) : PyStr := s.map pyUpperChar

/-- Codepoint of the hash character. -/
def hashCP : Nat := 35

/-- COLOR_NAMES: the fixed color-name-to-hex table of the integration
(custom_components/tvoverlay_ui, module level). -/
def COLOR_NAMES : List (PyStr × PyStr) := [
  (pyStr "red", pyStr "#FF0000"),
  (pyStr "green", pyStr "#00FF00"),
  (pyStr "blue", pyStr "#0000FF"),
  (pyStr "white", pyStr "#FFFFFF"),
  (pyStr "black", pyStr "#000000"),
  (pyStr "yellow", pyStr "#FFFF00"),
  (pyStr "orange", pyStr "#FFA500"),
  (pyStr "purple", pyStr "#800080"),
  (pyStr "pink", pyStr "#FFC0CB"),
  (pyStr "cyan", pyStr "#00FFFF"),
  (pyStr "magenta", pyStr "#FF00FF"),
  (pyStr "gray", pyStr "#808080"),
  (pyStr "grey", pyStr "#808080"),
  (pyStr "brown", pyStr "#A52A2A"),
  (pyStr "lime", pyStr "#00FF00"),
  (pyStr "navy", pyStr "#000080"),
  (pyStr "teal", pyStr "#008080"),
  (pyStr "maroon", pyStr "#800000"),
  (pyStr "olive", pyStr "#808000"),
  (pyStr "silver", pyStr "#C0C0C0"),
  (pyStr "aqua", pyStr "#00FFFF"),
  (pyStr "gold", pyStr "#FFD700"),
  (pyStr "coral", pyStr "#FF7F50"),
  (pyStr "salmon", pyStr "#FA8072"),
  (pyStr "violet", pyStr "#EE82EE"),
  (pyStr "indigo", pyStr "#4B0082"),
  (pyStr "turquoise", pyStr "#40E0D0")]

/-- Dictionary lookup on the color table (Python dict membership plus access). -/
def lookupColor (c : PyStr) : List (PyStr × PyStr) → Option PyStr
  | [] => none
  | kv :: rest => if c = kv.1 then some kv.2 else lookupColor c rest

/-- Model of Python str.startswith for the single character hash. -/
def startsWithHash (s : PyStr) : Bool :=
  match s with
  | c :: _ => decide (c = hashCP)
  | [] => false

/-- Embedding of _normalize_hex_color.  None and the empty string both map to
none (the Python guard is: color is None or not color). -/
def normalizeHexColor (color : Option PyStr) : Option PyStr :=
  match color with
  | none => none
  | some c =>
    if c = [] then none
    else
      let c1 := pyLower (pyStrip c)
      match lookupColor c1 COLOR_NAMES with
      | some v => some v
      | none => some (pyUpper (if startsWithHash c1 then c1 else hashCP :: c1))

/-- Uppercase hexadecimal digits, as codepoints. -/
def hexDigitsCP : PyStr := pyStr "0123456789ABCDEF"

/-- Uppercase hexadecimal rendering, structurally recursive on a fuel bound so
that it reduces inside the kernel.  Fuel n + 1 always suffices for n. -/
def toHexUpperAux (fuel n : Nat) : PyStr :=
  match fuel with
  | 0 => []
  | fuel + 1 =>
    if n < 16 then [hexDigitsCP.getD n 48]
    else toHexUpperAux fuel (n / 16) ++ [hexDigitsCP.getD (n % 16) 48]

/-- Uppercase hexadecimal rendering of a natural number (no padding). -/
def toHexUpper (n : Nat) : PyStr := toHexUpperAux (n + 1) n

/-- Model of the Python format specifier 02X: uppercase hex, zero padded to
width two. -/
def format02X (n : Nat) : PyStr :=
  List.replicate (2 - (toHexUpper n).length) 48 ++ toHexUpper n

/-- Embedding of _hex_with_alpha.  The opacity is a natural number because the
service schema constrains it to the range 0..100; the Python expression
int(opacity * 255 / 100) is exact float division of integers below 2^53
truncated toward zero, hence natural-number floor division here. -/
def hexWithAlpha (color : Option PyStr) (opacity : Option Nat) : Option PyStr :=
  match color with
  | none => none
  | some c =>
    if c = [] then none
    else
      match normalizeHexColor (some c) with
      | none => none
      | some col =>
        let rgb := col.dropWhile (fun ch => decide (ch = hashCP))
        if rgb.length = 6 then
          some (hashCP :: (format02X ((opacity.getD 40) * 255 / 100) ++ rgb))
        else some col

/-! Character-level lemmas about the ASCII case maps and whitespace. -/

theorem pyUpperChar_idem (c : Nat) : pyUpperChar (pyUpperChar c) = pyUpperChar c := by
  simp only [pyUpperChar]
  split_ifs <;> omega

theorem pyUpperChar_lower_upper (c : Nat) :
    pyUpperChar (pyLowerChar (pyUpperChar c)) = pyUpperChar c := by
  simp only [pyUpperChar, pyLowerChar]
  split_ifs <;> omega

theorem pyUpperChar_pyLowerChar_of_fixed {c : Nat} (h : pyUpperChar c = c) :
    pyUpperChar (pyLowerChar c) = c := by
  conv_lhs => rw [← h]
  rw [pyUpperChar_lower_upper, h]

theorem pyIsSpace_pyUpperChar (c : Nat) : pyIsSpace (pyUpperChar c) = pyIsSpace c := by
  simp only [pyIsSpace, pyUpperChar]
  split_ifs with h
  · rw [decide_eq_decide]
    omega
  · rfl

theorem pyIsSpace_pyLowerChar (c : Nat) : pyIsSpace (pyLowerChar c) = pyIsSpace c := by
  simp only [pyIsSpace, pyLowerChar]
  split_ifs with h
  · rw [decide_eq_decide]
    omega
  · rfl

theorem mem_pyUpper_fixed {x : Nat} {s : PyStr} (h : x ∈ pyUpper s) :
    pyUpperChar x = x := by
  obtain ⟨y, _, rfl⟩ := List.mem_map.mp h
  exact pyUpperChar_idem y

theorem pyUpper_pyLower_of_fixed {w : PyStr} (h : ∀ c ∈ w, pyUpperChar c = c) :
    pyUpper (pyLower w) = w := by
  induction w with
  | nil => rfl
  | cons a t ih =>
    simp only [pyUpper, pyLower, List.map_cons, List.map_map] at *
    refine congrArg₂ _ ?_ (ih fun c hc => h c (List.mem_cons_of_mem a hc))
    exact pyUpperChar_pyLowerChar_of_fixed (h a (List.mem_cons_self a t))

/-! Lemmas about dropWhile-based stripping. -/

theorem head?_dropWhile_not {p : Nat → Bool} {x : Nat} :
    ∀ {l : PyStr}, (l.dropWhile p).head? = some x → p x = false := by
  intro l
  induction l with
  | nil => intro h; simp [List.dropWhile] at h
  | cons a t ih =>
    intro h
    rw [List.dropWhile_cons] at h
    by_cases ha : p a = true
    · rw [if_pos ha] at h
      exact ih h
    · rw [if_neg ha] at h
      simp only [List.head?_cons, Option.some.injEq] at h
      subst h
      exact Bool.eq_false_iff.mpr ha

theorem dropWhile_cons_neg {p : Nat → Bool} {a : Nat} (l : PyStr) (h : p a = false) :
    (a :: l).dropWhile p = a :: l := by
  rw [List.dropWhile_cons, if_neg (by simp [h])]

theorem pyStrip_eq_self {s : PyStr}
    (h1 : ∀ a, s.head? = some a → pyIsSpace a = false)
    (h2 : ∀ b, s.getLast? = some b → pyIsSpace b = false) :
    pyStrip s = s := by
  cases s with
  | nil => rfl
  | cons a t =>
    have hd : (a :: t).dropWhile pyIsSpace = a :: t :=
      dropWhile_cons_neg t (h1 a rfl)
    rw [pyStrip, hd]
    rcases hr : (a :: t).reverse with _ | ⟨b, t'⟩
    · simp at hr
    · have hb : pyIsSpace b = false := by
        apply h2
        rw [← List.head?_reverse, hr, List.head?_cons]
      rw [dropWhile_cons_neg t' hb, ← hr, List.reverse_reverse]

theorem pyStrip_getLast_not_space {s : PyStr} {b : Nat}
    (h : (pyStrip s).getLast? = some b) : pyIsSpace b = false := by
  rw [pyStrip, List.getLast?_reverse] at h
  exact head?_dropWhile_not h

/-! Lemmas about the color-name table and its lookup. -/

theorem lookupColor_hash_none {l : List (PyStr × PyStr)}
    (hl : ∀ kv ∈ l, kv.1.head? ≠ some hashCP) (xs : PyStr) :
    lookupColor (hashCP :: xs) l = none := by
  induction l with
  | nil => rfl
  | cons kv rest ih =>
    rw [lookupColor, if_neg, ih fun p hp => hl p (List.mem_cons_of_mem kv hp)]
    intro he
    exact hl kv (List.mem_cons_self kv rest) (by rw [← he]; rfl)

theorem lookupColor_mem {k v : PyStr} :
    ∀ {l : List (PyStr × PyStr)}, lookupColor k l = some v → ∃ kv ∈ l, kv.2 = v := by
  intro l
  induction l with
  | nil => intro h; exact absurd h (by simp [lookupColor])
  | cons kv rest ih =>
    intro h
    rw [lookupColor] at h
    by_cases he : k = kv.1
    · rw [if_pos he] at h
      exact ⟨kv, List.mem_cons_self kv rest, by injection h⟩
    · rw [if_neg he] at h
      obtain ⟨p, hp, hv⟩ := ih h
      exact ⟨p, List.mem_cons_of_mem kv hp, hv⟩

theorem colorKeys_no_hash : ∀ kv ∈ COLOR_NAMES, kv.1.head? ≠ some hashCP := by decide

theorem colorValues_good : ∀ kv ∈ COLOR_NAMES,
    kv.2.head? = some hashCP ∧ ∀ c ∈ kv.2, pyUpperChar c = c ∧ pyIsSpace c = false := by
  decide

/-! Unfolding equations and output characterizations for the color functions. -/

theorem normalizeHexColor_some_eq (c : PyStr) :
    normalizeHexColor (some c) =
      if c = [] then none
      else
        match lookupColor (pyLower (pyStrip c)) COLOR_NAMES with
        | some v => some v
        | none => some (pyUpper (if startsWithHash (pyLower (pyStrip c)) then
            pyLower (pyStrip c) else hashCP :: pyLower (pyStrip c))) := rfl

theorem hexWithAlpha_some_eq (c : PyStr) (o : Option Nat) :
    hexWithAlpha (some c) o =
      if c = [] then none
      else
        match normalizeHexColor (some c) with
        | none => none
        | some col =>
          if (col.dropWhile (fun ch => decide (ch = hashCP))).length = 6 then
            some (hashCP :: (format02X ((o.getD 40) * 255 / 100) ++
              col.dropWhile (fun ch => decide (ch = hashCP))))
          else some col := rfl

theorem startsWithHash_true {s : PyStr} (h : startsWithHash s = true) :
    ∃ t, s = hashCP :: t := by
  cases s with
  | nil => simp [startsWithHash] at h
  | cons c t =>
    rw [startsWithHash] at h
    exact ⟨t, by rw [of_decide_eq_true h]⟩

theorem pyLower_strip_getLast_not_space {c : PyStr} {y : Nat}
    (h : (pyLower (pyStrip c)).getLast? = some y) : pyIsSpace y = false := by
  rw [pyLower, List.getLast?_map] at h
  cases hz : (pyStrip c).getLast? with
  | none => rw [hz] at h; simp at h
  | some z =>
    rw [hz, Option.map_some'] at h
    injection h with h
    rw [← h, pyIsSpace_pyLowerChar]
    exact pyStrip_getLast_not_space hz

theorem pyUpper_getLast_not_space {s : PyStr} {b : Nat}
    (hs : ∀ y, s.getLast? = some y → pyIsSpace y = false)
    (h : (pyUpper s).getLast? = some b) : pyIsSpace b = false := by
  rw [pyUpper, List.getLast?_map] at h
  cases hy : s.getLast? with
  | none => rw [hy] at h; simp at h
  | some y =>
    rw [hy, Option.map_some'] at h
    injection h with h
    rw [← h, pyIsSpace_pyUpperChar]
    exact hs y hy

theorem normalizeHexColor_out {c col : PyStr} (h : normalizeHexColor (some c) = some col) :
    col.head? = some hashCP ∧ (∀ x ∈ col, pyUpperChar x = x) ∧
      (∀ b, col.getLast? = some b → pyIsSpace b = false) := by
  rw [normalizeHexColor_some_eq] at h
  by_cases hc : c = []
  · rw [if_pos hc] at h
    exact absurd h (by simp)
  rw [if_neg hc] at h
  cases hl : lookupColor (pyLower (pyStrip c)) COLOR_NAMES with
  | some v =>
    rw [hl] at h
    injection h with h
    obtain ⟨kv, hmem, hv⟩ := lookupColor_mem hl
    obtain ⟨hhd, hch⟩ := colorValues_good kv hmem
    subst h
    subst hv
    exact ⟨hhd, fun x hx => (hch x hx).1,
      fun b hb => (hch b (List.mem_of_mem_getLast? hb)).2⟩
  | none =>
    rw [hl] at h
    injection h with h
    subst h
    by_cases hsw : startsWithHash (pyLower (pyStrip c)) = true
    · rw [if_pos hsw]
      obtain ⟨t, ht⟩ := startsWithHash_true hsw
      refine ⟨?_, fun x hx => mem_pyUpper_fixed hx, ?_⟩
      · rw [ht]
        rfl
      · intro b hb
        exact pyUpper_getLast_not_space
          (fun y hy => pyLower_strip_getLast_not_space hy) hb
    · rw [if_neg hsw]
      refine ⟨rfl, fun x hx => mem_pyUpper_fixed hx, ?_⟩
      intro b hb
      refine pyUpper_getLast_not_space ?_ hb
      intro y hy
      cases hc1 : pyLower (pyStrip c) with
      | nil =>
        rw [hc1] at hy
        injection hy with hy
        rw [← hy]
        decide
      | cons a t =>
        rw [hc1] at hy
        rw [List.getLast?_cons_cons, ← hc1] at hy
        exact pyLower_strip_getLast_not_space hy

theorem getLast?_cons_of_ne_nil {a : Nat} {l : PyStr} (h : l ≠ []) :
    (a :: l).getLast? = l.getLast? := by
  cases l with
  | nil => exact absurd rfl h
  | cons b t => exact List.getLast?_cons_cons

theorem normalizeHexColor_fixed {w : PyStr} (hh : w.head? = some hashCP)
    (hu : ∀ c ∈ w, pyUpperChar c = c)
    (hl : ∀ b, w.getLast? = some b → pyIsSpace b = false) :
    normalizeHexColor (some w) = some w := by
  obtain ⟨t, rfl⟩ : ∃ t, w = hashCP :: t := by
    cases w with
    | nil => simp at hh
    | cons a t =>
      injection hh with hh
      exact ⟨t, by rw [hh]⟩
  have hstrip : pyStrip (hashCP :: t) = hashCP :: t := by
    refine pyStrip_eq_self ?_ hl
    intro a ha
    injection ha with ha
    rw [← ha]
    decide
  have hlow : pyLower (hashCP :: t) = hashCP :: pyLower t := by
    rw [pyLower, List.map_cons]
    rfl
  rw [normalizeHexColor_some_eq, if_neg (List.cons_ne_nil hashCP t), hstrip, hlow,
    lookupColor_hash_none colorKeys_no_hash]
  have hsw : startsWithHash (hashCP :: pyLower t) = true := by
    rw [startsWithHash]
    simp
  rw [if_pos hsw, ← hlow, pyUpper_pyLower_of_fixed hu]

/-! Facts about the hexadecimal rendering. -/

theorem hexDigit_range : ∀ m, m < 16 →
    (48 ≤ hexDigitsCP.getD m 48 ∧ hexDigitsCP.getD m 48 ≤ 57) ∨
      (65 ≤ hexDigitsCP.getD m 48 ∧ hexDigitsCP.getD m 48 ≤ 70) := by
  decide

theorem toHexUpperAux_chars : ∀ (fuel n : Nat), ∀ c ∈ toHexUpperAux fuel n,
    (48 ≤ c ∧ c ≤ 57) ∨ (65 ≤ c ∧ c ≤ 70) := by
  intro fuel
  induction fuel with
  | zero => intro n c hc; simp [toHexUpperAux] at hc
  | succ f ih =>
    intro n c hc
    rw [toHexUpperAux] at hc
    by_cases h16 : n < 16
    · rw [if_pos h16] at hc
      simp only [List.mem_singleton] at hc
      subst hc
      exact hexDigit_range n h16
    · rw [if_neg h16] at hc
      rcases List.mem_append.mp hc with hm | hm
      · exact ih _ c hm
      · simp only [List.mem_singleton] at hm
        subst hm
        exact hexDigit_range _ (Nat.mod_lt n (by omega))

theorem toHexUpper_ne_nil (n : Nat) : toHexUpper n ≠ [] := by
  rw [toHexUpper, toHexUpperAux]
  by_cases h : n < 16
  · rw [if_pos h]
    simp
  · rw [if_neg h]
    simp

theorem format02X_chars : ∀ n, ∀ c ∈ format02X n,
    (48 ≤ c ∧ c ≤ 57) ∨ (65 ≤ c ∧ c ≤ 70) := by
  intro n c hc
  rw [format02X] at hc
  rcases List.mem_append.mp hc with hm | hm
  · have := List.eq_of_mem_replicate hm
    omega
  · exact toHexUpperAux_chars _ _ c hm

theorem format02X_length (n : Nat) : 2 ≤ (format02X n).length := by
  rw [format02X, List.length_append, List.length_replicate]
  have h0 : 0 < (toHexUpper n).length := List.length_pos.mpr (toHexUpper_ne_nil n)
  omega

theorem format02X_ne_nil (n : Nat) : format02X n ≠ [] := by
  intro h
  have := format02X_length n
  rw [h] at this
  simp at this

theorem range_good {c : Nat} (h : (48 ≤ c ∧ c ≤ 57) ∨ (65 ≤ c ∧ c ≤ 70)) :
    pyUpperChar c = c ∧ pyIsSpace c = false ∧ c ≠ hashCP := by
  refine ⟨?_, ?_, ?_⟩
  · rw [pyUpperChar, if_neg]
    omega
  · rw [pyIsSpace, decide_eq_false_iff_not]
    omega
  · rw [hashCP]
    omega

theorem hexWithAlpha_out {c : PyStr} {o : Option Nat} {w : PyStr}
    (h : hexWithAlpha (some c) o = some w) :
    w.head? = some hashCP ∧ (∀ x ∈ w, pyUpperChar x = x) ∧
      (∀ b, w.getLast? = some b → pyIsSpace b = false) ∧
      (w.dropWhile (fun ch => decide (ch = hashCP))).length ≠ 6 := by
  rw [hexWithAlpha_some_eq] at h
  by_cases hc : c = []
  · rw [if_pos hc] at h
    exact absurd h (by simp)
  rw [if_neg hc] at h
  cases hn : normalizeHexColor (some c) with
  | none =>
    rw [hn] at h
    exact absurd h (by simp)
  | some col =>
    rw [hn] at h
    dsimp only at h
    obtain ⟨hhead, hchars, hlast⟩ := normalizeHexColor_out hn
    by_cases h6 : (col.dropWhile (fun ch => decide (ch = hashCP))).length = 6
    · rw [if_pos h6] at h
      injection h with h
      subst h
      have hrgbne : col.dropWhile (fun ch => decide (ch = hashCP)) ≠ [] := by
        intro he
        rw [he] at h6
        simp at h6
      obtain ⟨t0, ht0⟩ := List.dropWhile_suffix (l := col) (fun ch => decide (ch = hashCP))
      refine ⟨rfl, ?_, ?_, ?_⟩
      · intro x hx
        rcases List.mem_cons.mp hx with rfl | hx
        · decide
        rcases List.mem_append.mp hx with hx | hx
        · exact (range_good (format02X_chars _ x hx)).1
        · exact hchars x (ht0 ▸ List.mem_append_right t0 hx)
      · intro b hb
        rw [getLast?_cons_of_ne_nil (by simp [hrgbne]),
          List.getLast?_append_of_ne_nil _ hrgbne] at hb
        refine hlast b ?_
        rw [← ht0, List.getLast?_append_of_ne_nil _ hrgbne]
        exact hb
      · obtain ⟨f0, ft, hf⟩ := List.exists_cons_of_ne_nil
          (format02X_ne_nil ((o.getD 40) * 255 / 100))
        have hf0 : f0 ≠ hashCP := by
          refine (range_good (format02X_chars ((o.getD 40) * 255 / 100) f0 ?_)).2.2
          rw [hf]
          exact List.mem_cons_self f0 ft
        rw [List.dropWhile_cons, if_pos (by simp), hf, List.cons_append,
          dropWhile_cons_neg _ (decide_eq_false_iff_not.mpr hf0)]
        have hlen := format02X_length ((o.getD 40) * 255 / 100)
        rw [hf] at hlen
        simp only [List.length_cons, List.length_append]
        omega
    · rw [if_neg h6] at h
      injection h with h
      subst h
      exact ⟨hhead, hchars, hlast, h6⟩

/-- C10: _hex_with_alpha leaves alone any color whose normalized form does not
have exactly six characters after the leading hash characters, and is
consequently idempotent: composing it with itself (at any opacities) equals a
single application. -/
theorem hexWithAlpha_passthrough_and_idem (co : Option PyStr) (c w : PyStr)
    (o o' : Option Nat) :
    (normalizeHexColor (some c) = some w →
      (w.dropWhile (fun ch => decide (ch = hashCP))).length ≠ 6 →
      hexWithAlpha (some c) o = some w) ∧
    hexWithAlpha (hexWithAlpha co o) o' = hexWithAlpha co o := by
  constructor
  · intro hn h6
    have hc : c ≠ [] := by
      intro he
      rw [he] at hn
      exact absurd hn (by simp [normalizeHexColor])
    rw [hexWithAlpha_some_eq, if_neg hc, hn]
    dsimp only
    rw [if_neg h6]
  · cases co with
    | none => rfl
    | some c0 =>
      cases hw : hexWithAlpha (some c0) o with
      | none => rfl
      | some w0 =>
        obtain ⟨hhead, hchars, hlast, h6⟩ := hexWithAlpha_out hw
        have hne : w0 ≠ [] := by
          intro he
          rw [he] at hhead
          simp at hhead
        rw [hexWithAlpha_some_eq, if_neg hne,
          normalizeHexColor_fixed hhead hchars hlast]
        dsimp only
        rw [if_neg h6]

/-- Witness for C10 at concrete inputs: an already alpha-composited color is
passed through unchanged, and a second composition of a composited color name
changes nothing. -/
theorem hexWithAlpha_passthrough_and_idem_witness :
    hexWithAlpha (some (pyStr "#AABBCCDD")) (some 50) = some (pyStr "#AABBCCDD") ∧
    hexWithAlpha (hexWithAlpha (some (pyStr "red")) (some 50)) (some 80) =
      hexWithAlpha (some (pyStr "red")) (some 50) :=
  ⟨(hexWithAlpha_passthrough_and_idem (some (pyStr "red")) (pyStr "#AABBCCDD")
      (pyStr "#AABBCCDD") (some 50) (some 80)).1 (by decide) (by decide),
    (hexWithAlpha_passthrough_and_idem (some (pyStr "red")) (pyStr "#AABBCCDD")
      (pyStr "#AABBCCDD") (some 50) (some 80)).2⟩

/-! Claims C3 and C4 about the color pipeline. -/

/-- Alpha byte as the spec words it: round(opacity × 255 / 100) to the nearest
integer.  Stated from the spec (rounding half up; the only input used below is
not a tie, so every rounding convention agrees), for comparison with the code's
truncating int() conversion. -/
def specClaimedAlpha (opacity : Nat) : Nat := (opacity * 255 + 50) / 100

theorem pyUpper_eq_self_of_fixed {w : PyStr} (h : ∀ c ∈ w, pyUpperChar c = c) :
    pyUpper w = w := by
  induction w with
  | nil => rfl
  | cons a t ih =>
    rw [pyUpper, List.map_cons, h a (List.mem_cons_self a t)]
    exact congrArg _ (ih fun c hc => h c (List.mem_cons_of_mem a hc))

theorem toHexUpperAux_small (f k : Nat) (h : k < 16) :
    (toHexUpperAux (f + 1) k).length = 1 := by
  rw [toHexUpperAux, if_pos h]
  rfl

theorem format02X_length_eq (n : Nat) (h : n ≤ 255) : (format02X n).length = 2 := by
  have hlen : (toHexUpper n).length = 1 ∨ (toHexUpper n).length = 2 := by
    rw [toHexUpper]
    by_cases h16 : n < 16
    · left
      exact toHexUpperAux_small n n h16
    · right
      rw [toHexUpperAux, if_neg h16]
      cases n with
      | zero => omega
      | succ m =>
        rw [List.length_append, toHexUpperAux_small m ((m + 1) / 16)
          ((Nat.div_lt_iff_lt_mul (by omega)).mpr (by omega))]
        rfl
  rw [format02X, List.length_append, List.length_replicate]
  omega

/-- C3 counterexample: at input color "#FF0000" and opacity 1 the code produces
the alpha byte 02 (truncation of 2.55), while the spec formula
round(opacity × 255 / 100) gives 3, so the claimed output "#03FF0000" differs
from the actual output "#02FF0000". -/
theorem hexWithAlpha_round_counterexample :
    hexWithAlpha (some (pyStr "#FF0000")) (some 1) = some (pyStr "#02FF0000") ∧
    hashCP :: (format02X (specClaimedAlpha 1) ++ pyStr "FF0000") = pyStr "#03FF0000" ∧
    pyStr "#02FF0000" ≠ pyStr "#03FF0000" := by
  refine ⟨by decide, by decide, by decide⟩

/-- C3 amended: for every input color whose normalized form is #RRGGBB and
every opacity percentage in 0..100 (40 used when absent), _hex_with_alpha
returns #AARRGGBB where the alpha byte equals the truncation
floor(opacity × 255 / 100) formatted as two uppercase hex digits; "#FF0000" at
opacity 50 yields "#7FFF0000" and with opacity absent yields "#66FF0000". -/
theorem hexWithAlpha_alpha_floor (c w : PyStr) (o : Nat) (ho : o ≤ 100)
    (hn : normalizeHexColor (some c) = some w)
    (h6 : (w.dropWhile (fun ch => decide (ch = hashCP))).length = 6) :
    hexWithAlpha (some c) (some o) =
      some (hashCP :: (format02X (o * 255 / 100) ++
        w.dropWhile (fun ch => decide (ch = hashCP)))) ∧
    hexWithAlpha (some c) none =
      some (hashCP :: (format02X (40 * 255 / 100) ++
        w.dropWhile (fun ch => decide (ch = hashCP)))) ∧
    (format02X (o * 255 / 100)).length = 2 ∧
    hexWithAlpha (some (pyStr "#FF0000")) (some 50) = some (pyStr "#7FFF0000") ∧
    hexWithAlpha (some (pyStr "#FF0000")) none = some (pyStr "#66FF0000") := by
  have hc : c ≠ [] := by
    intro he
    rw [he] at hn
    exact absurd hn (by simp [normalizeHexColor])
  refine ⟨?_, ?_, ?_, by decide, by decide⟩
  · rw [hexWithAlpha_some_eq, if_neg hc, hn]
    dsimp only
    rw [if_pos h6]
    rfl
  · rw [hexWithAlpha_some_eq, if_neg hc, hn]
    dsimp only
    rw [if_pos h6]
    rfl
  · refine format02X_length_eq _ ?_
    have : o * 255 / 100 ≤ 100 * 255 / 100 := Nat.div_le_div_right (by omega)
    omega

/-- Witness for the amended C3 at the color name "red" and opacity 50. -/
theorem hexWithAlpha_alpha_floor_witness :
    normalizeHexColor (some (pyStr "red")) = some (pyStr "#FF0000") ∧
    hexWithAlpha (some (pyStr "red")) (some 50) = some (pyStr "#7FFF0000") :=
  ⟨by decide,
    ((hexWithAlpha_alpha_floor (pyStr "red") (pyStr "#FF0000") 50 (by decide)
      (by decide) (by decide)).1).trans (by decide)⟩

/-- C4 counterexample: the unrecognized non-hex string "xyz" normalizes to
"#XYZ", which is not of the 7-character #RRGGBB form, refuting the conjunct
that the output is always #RRGGBB uppercase or nothing. -/
theorem normalizeHexColor_shape_counterexample :
    normalizeHexColor (some (pyStr "xyz")) = some (pyStr "#XYZ") ∧
    (pyStr "#XYZ").length ≠ 7 := by
  refine ⟨by decide, by decide⟩

/-- C4 amended: _normalize_hex_color is a total pure function that maps every
recognized color name (case-insensitively) to its documented fixed hex value,
hash-prefixed hex strings and bare hex strings to the hash-prefixed uppercase
form, empty or absent input to nothing, and passes every unrecognized string
through hash-prefixed and uppercased; every non-nothing output starts with a
hash and is uppercase (a fixed point of upper-casing), though not necessarily
of the exact #RRGGBB length. -/
theorem normalizeHexColor_correct :
    (∀ kv ∈ COLOR_NAMES, normalizeHexColor (some kv.1) = some kv.2) ∧
    (∀ kv ∈ COLOR_NAMES, normalizeHexColor (some (pyUpper kv.1)) = some kv.2) ∧
    normalizeHexColor (some (pyStr "FF0000")) = some (pyStr "#FF0000") ∧
    normalizeHexColor (some (pyStr "#ff0000")) = some (pyStr "#FF0000") ∧
    normalizeHexColor none = none ∧
    normalizeHexColor (some []) = none ∧
    (∀ c : PyStr, c ≠ [] →
      lookupColor (pyLower (pyStrip c)) COLOR_NAMES = none →
      normalizeHexColor (some c) =
        some (pyUpper (if startsWithHash (pyLower (pyStrip c)) then
          pyLower (pyStrip c) else hashCP :: pyLower (pyStrip c)))) ∧
    (∀ (c w : PyStr), normalizeHexColor (some c) = some w →
      w.head? = some hashCP ∧ pyUpper w = w) := by
  refine ⟨by decide, by decide, by decide, by decide, rfl, rfl, ?_, ?_⟩
  · intro c hc hl
    rw [normalizeHexColor_some_eq, if_neg hc, hl]
  · intro c w h
    obtain ⟨hhead, hchars, _⟩ := normalizeHexColor_out h
    exact ⟨hhead, pyUpper_eq_self_of_fixed hchars⟩

/-- Witness for the amended C4 at the color name "red" and at "#ff0000". -/
theorem normalizeHexColor_correct_witness :
    normalizeHexColor (some (pyStr "red")) = some (pyStr "#FF0000") ∧
    (pyStr "#FF0000").head? = some hashCP ∧
    pyUpper (pyStr "#FF0000") = pyStr "#FF0000" :=
  ⟨normalizeHexColor_correct.1 (pyStr "red", pyStr "#FF0000") (by decide),
    normalizeHexColor_correct.2.2.2.2.2.2.2 (pyStr "#ff0000") (pyStr "#FF0000")
      (by decide)⟩

/-! Claim C9: _parse_host_port. -/

/-- Digit-run parsing: nonempty all-decimal-digit strings to their value. -/
def parseDigits (ds : PyStr) : Option Nat :=
  if ds ≠ [] ∧ ∀ d ∈ ds, 48 ≤ d ∧ d ≤ 57 then
    some (ds.foldl (fun a d => a * 10 + (d - 48)) 0)
  else none

/-- Model of Python int(str): surrounding whitespace is stripped, an optional
sign is accepted, then a nonempty digit run (underscore digit grouping is not
modelled). -/
def pyParseInt (s : PyStr) : Option Int :=
  match pyStrip s with
  | 43 :: rest => (parseDigits rest).map fun n => (n : Int)
  | 45 :: rest => (parseDigits rest).map fun n => -(n : Int)
  | t => (parseDigits t).map fun n => (n : Int)

/-- Embedding of _parse_host_port.  The DEFAULT_PORT constant lives in the
integration's const module, which is not part of the sources; it is therefore
abstracted as the defaultPort argument.  Python's rsplit at the last colon is
realized by taking the longest colon-free suffix. -/
def parseHostPort (hostString : PyStr) (defaultPort : Int) : PyStr × Int :=
  if (58 : Nat) ∈ hostString then
    match pyParseInt ((hostString.reverse.takeWhile
        (fun c => decide (¬ c = 58))).reverse) with
    | some n =>
      (hostString.take (hostString.length -
        ((hostString.reverse.takeWhile (fun c => decide (¬ c = 58))).reverse).length - 1), n)
    | none => (hostString, defaultPort)
  else (hostString, defaultPort)

theorem takeWhile_append_all {p : Nat → Bool} :
    ∀ (a b : PyStr), (∀ x ∈ a, p x = true) →
      (∀ h, b.head? = some h → p h = false) →
      (a ++ b).takeWhile p = a := by
  intro a
  induction a with
  | nil =>
    intro b _ hb
    cases b with
    | nil => rfl
    | cons h t =>
      rw [List.nil_append, List.takeWhile_cons, if_neg (by simp [hb h rfl])]
  | cons x t ih =>
    intro b ha hb
    rw [List.cons_append, List.takeWhile_cons,
      if_pos (by simp [ha x (List.mem_cons_self x t)])]
    exact congrArg _ (ih b (fun y hy => ha y (List.mem_cons_of_mem x hy)) hb)

/-- C9: _parse_host_port is total and deterministic; with no colon it returns
the original string and the default port; with a colon whose suffix parses as
an integer it returns the prefix before the last colon and that integer; with
a colon but a non-integer suffix it returns the entire original string and the
default port. -/
theorem parseHostPort_correct (s : PyStr) (dp : Int) :
    ((58 : Nat) ∉ s → parseHostPort s dp = (s, dp)) ∧
    (∀ a b : PyStr, s = a ++ 58 :: b → (58 : Nat) ∉ b →
      (∀ n : Int, pyParseInt b = some n → parseHostPort s dp = (a, n)) ∧
      (pyParseInt b = none → parseHostPort s dp = (s, dp))) := by
  constructor
  · intro h
    rw [parseHostPort, if_neg h]
  · intro a b hs hb
    subst hs
    have hmem : (58 : Nat) ∈ a ++ 58 :: b :=
      List.mem_append_right a (List.mem_cons_self 58 b)
    have hsuf : (((a ++ 58 :: b).reverse.takeWhile
        (fun c => decide (¬ c = 58))).reverse) = b := by
      rw [List.reverse_append, List.reverse_cons, List.append_assoc,
        List.singleton_append]
      rw [takeWhile_append_all b.reverse (58 :: a.reverse) ?h1 ?h2,
        List.reverse_reverse]
      case h1 =>
        intro x hx
        exact decide_eq_true fun he => hb (he ▸ List.mem_reverse.mp hx)
      case h2 =>
        intro h hh
        injection hh with hh
        subst hh
        decide
    have hlen : (a ++ 58 :: b).length - b.length - 1 = a.length := by
      rw [List.length_append, List.length_cons]
      omega
    constructor
    · intro n hp
      rw [parseHostPort, if_pos hmem, hsuf, hp]
      dsimp only
      rw [hlen, List.take_left]
    · intro hp
      rw [parseHostPort, if_pos hmem, hsuf, hp]

/-- Witness for C9 at the concrete input "host:80" with default port 5001. -/
theorem parseHostPort_correct_witness :
    pyStr "host:80" = pyStr "host" ++ 58 :: pyStr "80" ∧
    parseHostPort (pyStr "host:80") 5001 = (pyStr "host", 80) :=
  ⟨by decide,
    ((parseHostPort_correct (pyStr "host:80") 5001).2 (pyStr "host") (pyStr "80")
      (by decide) (by decide)).1 80 (by decide)⟩

/-! Claims C1 and C7: the API client (api.py). -/

/-- Scalar JSON values appearing in notification payloads. -/
inductive PyVal where
  | str (s : PyStr)
  | intv (n : Nat)
  | boolv (b : Bool)
  | nonev
deriving DecidableEq

/-- A Python dict payload, as its insertion-ordered key/value pairs. -/
abbrev Payload := List (PyStr × PyVal)

/-- Modelled from the spec: the five fixed endpoint paths (ENDPOINT_NOTIFY,
ENDPOINT_NOTIFY_FIXED, ENDPOINT_SET_OVERLAY, ENDPOINT_SET_NOTIFICATIONS,
ENDPOINT_SET_SETTINGS) are defined in the integration's const module, which is
absent from the sources; only their identity matters to the claims, so they
are modelled as a closed enumeration. -/
inductive Endpoint where
  | notify
  | notifyFixed
  | setOverlay
  | setNotifications
  | setSettings
deriving DecidableEq

/-- Oracle for the outcome of a single HTTP POST: a response with a status and
body, a timeout (asyncio.TimeoutError), or a transport failure
(aiohttp.ClientError with a rendered message). -/
inductive HttpOutcome where
  | response (status : Nat) (body : PyStr)
  | timeout
  | transportError (msg : PyStr)
deriving DecidableEq

/-- Embedding of the exception taxonomy of api.py; TvOverlayConnectionError
(a subclass of TvOverlayApiError) is the only exception the client raises. -/
inductive TvOverlayApiError where
  | connectionError (msg : PyStr)
deriving DecidableEq

/-- Decimal rendering, structurally recursive on a fuel bound. -/
def natToDecAux (fuel n : Nat) : PyStr :=
  match fuel with
  | 0 => []
  | fuel + 1 =>
    if n < 10 then [48 + n] else natToDecAux fuel (n / 10) ++ [48 + n % 10]

/-- Decimal rendering of a natural number. -/
def natToDec (n : Nat) : PyStr := natToDecAux (n + 1) n

/-- Message of the connection error raised on timeout. -/
def timeoutMessage (host : PyStr) (port : Nat) : PyStr :=
  pyStr "Timeout connecting to TvOverlay at " ++ (host ++ 58 :: natToDec port)

/-- Message of the connection error raised on a transport failure. -/
def transportMessage (host : PyStr) (port : Nat) (err : PyStr) : PyStr :=
  pyStr "Error connecting to TvOverlay at " ++ (host ++ 58 :: natToDec port) ++
    pyStr ": " ++ err

/-- Embedding of TvOverlayApiClient._request.  The async POST is embedded by
passing the outcome of the network interaction explicitly; the shared-session
and ephemeral-session branches of the source behave identically at this level,
differing only in which session performs the POST.  A 200 response returns
true, any other response logs and returns false, and a timeout or transport
failure raises TvOverlayConnectionError with the host and port in its
message. -/
def clientRequest (host : PyStr) (port : Nat) (_endpoint : Endpoint)
    (_data : Option Payload) (outcome : HttpOutcome) :
    Except TvOverlayApiError Bool :=
  match outcome with
  | .response status _ => if status = 200 then .ok true else .ok false
  | .timeout => .error (.connectionError (timeoutMessage host port))
  | .transportError err => .error (.connectionError (transportMessage host port err))

/-- Embedding of TvOverlayApiClient.test_connection: POST an empty payload to
the notify endpoint, mapping a raised connection error to false. -/
def testConnection (host : PyStr) (port : Nat) (outcome : HttpOutcome) : Bool :=
  match clientRequest host port .notify (some []) outcome with
  | .ok b => b
  | .error (.connectionError _) => false

theorem testConnection_eq (h : PyStr) (p : Nat) (o : HttpOutcome) :
    testConnection h p o =
      match clientRequest h p .notify (some []) o with
      | .ok b => b
      | .error (.connectionError _) => false := rfl

/-- C1: the client's _request returns true iff the response status is exactly
200, returns false on any non-200 response without raising, and raises the
connection error, with host and port embedded in its message, exactly when a
timeout or transport failure occurs. -/
theorem clientRequest_correct (h : PyStr) (p : Nat) (ep : Endpoint)
    (d : Option Payload) (o : HttpOutcome) :
    (clientRequest h p ep d o = .ok true ↔ ∃ b, o = .response 200 b) ∧
    (∀ st b, o = .response st b → st ≠ 200 → clientRequest h p ep d o = .ok false) ∧
    (∀ e, clientRequest h p ep d o = .error e →
      o = .timeout ∨ ∃ m, o = .transportError m) ∧
    ((o = .timeout ∨ (∃ m, o = .transportError m)) →
      ∃ msg pre suf, clientRequest h p ep d o = .error (.connectionError msg) ∧
        msg = pre ++ (h ++ 58 :: natToDec p) ++ suf) := by
  cases o with
  | response st b =>
    refine ⟨⟨fun hr => ⟨b, ?_⟩, fun hex => ?_⟩, fun st' b' he hne => ?_,
      fun e he => ?_, fun habs => ?_⟩
    · by_cases hst : st = 200
      · rw [hst]
      · rw [clientRequest, if_neg hst] at hr
        exact absurd (by injection hr) Bool.false_ne_true
    · obtain ⟨b', hb⟩ := hex
      injection hb with h1 _
      rw [clientRequest, if_pos h1]
    · injection he with h1 _
      rw [clientRequest, if_neg (h1 ▸ hne)]
    · rw [clientRequest] at he
      by_cases hst : st = 200
      · rw [if_pos hst] at he
        exact absurd he (by simp)
      · rw [if_neg hst] at he
        exact absurd he (by simp)
    · rcases habs with hh | ⟨m, hh⟩ <;> simp at hh
  | timeout =>
    refine ⟨⟨fun hr => ?_, fun hex => ?_⟩, fun st' b' he hne => ?_,
      fun e he => Or.inl rfl, fun _ => ?_⟩
    · rw [clientRequest] at hr
      exact absurd hr (by simp)
    · obtain ⟨b', hb⟩ := hex
      exact absurd hb (by simp)
    · exact absurd he (by simp)
    · refine ⟨timeoutMessage h p, pyStr "Timeout connecting to TvOverlay at ",
        [], rfl, ?_⟩
      rw [timeoutMessage, List.append_nil]
  | transportError m =>
    refine ⟨⟨fun hr => ?_, fun hex => ?_⟩, fun st' b' he hne => ?_,
      fun e he => Or.inr ⟨m, rfl⟩, fun _ => ?_⟩
    · rw [clientRequest] at hr
      exact absurd hr (by simp)
    · obtain ⟨b', hb⟩ := hex
      exact absurd hb (by simp)
    · exact absurd he (by simp)
    · refine ⟨transportMessage h p m, pyStr "Error connecting to TvOverlay at ",
        pyStr ": " ++ m, rfl, ?_⟩
      rw [transportMessage, List.append_assoc]

/-- Witness for C1: a 404 response yields the boolean false. -/
theorem clientRequest_correct_witness :
    clientRequest (pyStr "192.168.1.2") 5001 Endpoint.notify none
      (HttpOutcome.response 404 []) = Except.ok false :=
  (clientRequest_correct (pyStr "192.168.1.2") 5001 .notify none
    (.response 404 [])).2.1 404 [] rfl (by decide)

/-- C7: test_connection posts the empty payload to the notify endpoint and
returns a boolean for every outcome: false when the underlying request raises
the connection error, and the request's boolean result otherwise. -/
theorem testConnection_correct (h : PyStr) (p : Nat) (o : HttpOutcome) :
    (∀ e, clientRequest h p .notify (some []) o = .error e →
      testConnection h p o = false) ∧
    (∀ b, clientRequest h p .notify (some []) o = .ok b →
      testConnection h p o = b) := by
  constructor
  · intro e he
    rw [testConnection_eq, he]
  · intro b hb
    rw [testConnection_eq, hb]

/-- Witness for C7: a timeout makes test_connection return false. -/
theorem testConnection_correct_witness :
    testConnection (pyStr "192.168.1.2") 5001 HttpOutcome.timeout = false :=
  (testConnection_correct (pyStr "192.168.1.2") 5001 .timeout).1
    (.connectionError (timeoutMessage (pyStr "192.168.1.2") 5001)) rfl

/-! Claims C2 and C8: the fixed-notification ID registry. -/

/-- One service operation touching the registry of a device: create models
async_notify_fixed (the success flag of send_fixed_notification together with
the payload's optional id), clear models async_clear_fixed (the success flag
of clear_fixed_notification and the required id). -/
inductive RegistryOp where
  | create (success : Bool) (payloadId : Option PyStr)
  | clear (success : Bool) (notificationId : PyStr)

/-- Effect of one operation on the stored notification_ids list, mirroring
async_notify_fixed / async_clear_fixed together with _add_notification_id and
_remove_notification_id: a successful create whose payload carries a truthy
(nonempty) id appends it if absent; a successful clear removes the id if
present; everything else leaves the list unchanged. -/
def applyOp (ids : List PyStr) : RegistryOp → List PyStr
  | .create true (some i) =>
    if i = [] then ids
    else if i ∈ ids then ids else ids ++ [i]
  | .create _ _ => ids
  | .clear true i => if i ∈ ids then ids.erase i else ids
  | .clear _ _ => ids

/-- Classification of one operation with respect to the id i: some true for a
successful create of i (with a truthy id), some false for a successful clear
of i, none when the operation does not successfully target i. -/
def classifyOp (i : PyStr) (op : RegistryOp) : Option Bool :=
  match op with
  | .create true (some j) => if j = i ∧ i ≠ [] then some true else none
  | .clear true j => if j = i then some false else none
  | _ => none

/-- The last successful operation targeting the id i in a chronologically
ordered operation list: some true for a create, some false for a clear, none
when no successful operation targets i. -/
def lastOpOn (i : PyStr) : List RegistryOp → Option Bool
  | [] => none
  | op :: rest =>
    match lastOpOn i rest with
    | some r => some r
    | none => classifyOp i op

theorem applyOp_nodup {ids : List PyStr} (h : ids.Nodup) (op : RegistryOp) :
    (applyOp ids op).Nodup := by
  cases op with
  | create s oi =>
    cases s with
    | false => cases oi <;> exact h
    | true =>
      cases oi with
      | none => exact h
      | some i =>
        simp only [applyOp]
        split_ifs with h1 h2
        · exact h
        · exact h
        · refine List.Nodup.append h (List.nodup_singleton i) ?_
          intro a ha hb
          rw [List.mem_singleton] at hb
          exact h2 (hb ▸ ha)
  | clear s i =>
    cases s with
    | false => exact h
    | true =>
      simp only [applyOp]
      split_ifs with h1
      · exact h.erase i
      · exact h

theorem mem_applyOp_iff (i : PyStr) (ids : List PyStr) (h : ids.Nodup)
    (op : RegistryOp) :
    (i ∈ applyOp ids op ↔
      classifyOp i op = some true ∨ (classifyOp i op = none ∧ i ∈ ids)) := by
  cases op with
  | create s oi =>
    cases s with
    | false =>
      have ha : applyOp ids (.create false oi) = ids := by cases oi <;> rfl
      have hcl : classifyOp i (.create false oi) = none := by cases oi <;> rfl
      rw [ha, hcl]
      simp
    | true =>
      cases oi with
      | none =>
        rw [show applyOp ids (.create true none) = ids from rfl,
          show classifyOp i (.create true none) = none from rfl]
        simp
      | some j =>
        rw [show classifyOp i (.create true (some j)) =
          if j = i ∧ i ≠ [] then some true else none from rfl]
        simp only [applyOp]
        by_cases hj : j = i
        · subst hj
          by_cases hi : j = []
          · rw [if_pos hi, if_neg (by simp [hi])]
            simp
          · rw [if_neg hi, show (if j = j ∧ j ≠ [] then some true
              else (none : Option Bool)) = some true from if_pos ⟨rfl, hi⟩]
            split_ifs with hm
            · simp [hm]
            · simp
        · rw [show (if j = i ∧ i ≠ [] then some true
            else (none : Option Bool)) = none from if_neg fun hc => hj hc.1]
          simp only [reduceCtorEq, false_or, true_and]
          split_ifs with h1 h2
          · exact Iff.rfl
          · exact Iff.rfl
          · rw [List.mem_append, List.mem_singleton]
            exact ⟨fun hc => hc.elim id fun he => absurd he.symm hj, Or.inl⟩
  | clear s j =>
    cases s with
    | false =>
      rw [show applyOp ids (.clear false j) = ids from rfl,
        show classifyOp i (.clear false j) = none from rfl]
      simp
    | true =>
      rw [show classifyOp i (.clear true j) =
        if j = i then some false else none from rfl]
      simp only [applyOp]
      by_cases hj : j = i
      · subst hj
        rw [if_pos rfl]
        split_ifs with hm
        · simp [h.not_mem_erase]
        · simp [hm]
      · rw [if_neg hj]
        simp only [reduceCtorEq, false_or, true_and]
        split_ifs with hm
        · exact List.mem_erase_of_ne fun he => hj he.symm
        · exact Iff.rfl

theorem mem_foldl_applyOp (i : PyStr) :
    ∀ (ops : List RegistryOp) (ids : List PyStr), ids.Nodup →
      (i ∈ ops.foldl applyOp ids ↔
        lastOpOn i ops = some true ∨ (lastOpOn i ops = none ∧ i ∈ ids)) := by
  intro ops
  induction ops with
  | nil =>
    intro ids _
    simp [lastOpOn]
  | cons op rest ih =>
    intro ids h
    rw [List.foldl_cons, ih (applyOp ids op) (applyOp_nodup h op), lastOpOn]
    cases hrest : lastOpOn i rest with
    | some r =>
      dsimp only
      by_cases hr : r = true
      · subst hr
        simp
      · simp [hr]
    | none =>
      dsimp only
      simp only [reduceCtorEq, false_or, true_and]
      exact mem_applyOp_iff i ids h op

/-- C8: assuming the stored list has no duplicates, every registry mutation
preserves distinctness, because an id is appended only when not already
present; an already-present id is never appended again. -/
theorem registry_distinct (ids : List PyStr) (op : RegistryOp) (i : PyStr)
    (h : ids.Nodup) :
    (applyOp ids op).Nodup ∧
    (i ∈ ids → applyOp ids (.create true (some i)) = ids) := by
  refine ⟨applyOp_nodup h op, ?_⟩
  intro hm
  rw [show applyOp ids (.create true (some i)) =
    (if i = [] then ids else if i ∈ ids then ids else ids ++ [i]) from rfl]
  by_cases h1 : i = []
  · rw [if_pos h1]
  · rw [if_neg h1, if_pos hm]

/-- Witness for C8 on a concrete two-element registry. -/
theorem registry_distinct_witness :
    (applyOp [pyStr "a", pyStr "b"] (.create true (some (pyStr "c")))).Nodup ∧
    applyOp [pyStr "a", pyStr "b"] (.create true (some (pyStr "a"))) =
      [pyStr "a", pyStr "b"] :=
  ⟨(registry_distinct [pyStr "a", pyStr "b"] (.create true (some (pyStr "c")))
      (pyStr "a") (by decide)).1,
    (registry_distinct [pyStr "a", pyStr "b"] (.create true (some (pyStr "a")))
      (pyStr "a") (by decide)).2 (by decide)⟩

/-- C2: starting from an empty registry, an id is in the registry after a
sequence of notify_fixed / clear_fixed operations iff the last successful
operation on it was a create not followed by a successful clear; moreover a
successful clear removes the id, a failed clear leaves the registry unchanged,
and a failed create adds nothing. -/
theorem registry_membership (ops : List RegistryOp) (i : PyStr) :
    (i ∈ ops.foldl applyOp [] ↔ lastOpOn i ops = some true) ∧
    (∀ ids : List PyStr, ids.Nodup → i ∉ applyOp ids (.clear true i)) ∧
    (∀ ids : List PyStr, applyOp ids (.clear false i) = ids) ∧
    (∀ (ids : List PyStr) (oi : Option PyStr),
      applyOp ids (.create false oi) = ids) := by
  refine ⟨?_, ?_, ?_, ?_⟩
  · rw [mem_foldl_applyOp i ops [] List.nodup_nil]
    simp
  · intro ids h
    simp only [applyOp]
    split_ifs with hm
    · exact h.not_mem_erase
    · exact hm
  · intro ids
    rfl
  · intro ids oi
    cases oi <;> rfl

/-- Witness for C2: a create-clear-create trace on concrete ids, and the
clear facts on a concrete registry. -/
theorem registry_membership_witness :
    (pyStr "x" ∈ [RegistryOp.create true (some (pyStr "x")),
      RegistryOp.clear false (pyStr "x")].foldl applyOp []) ∧
    pyStr "a" ∉ applyOp [pyStr "a"] (.clear true (pyStr "a")) :=
  ⟨(registry_membership [RegistryOp.create true (some (pyStr "x")),
      RegistryOp.clear false (pyStr "x")] (pyStr "x")).1.mpr (by decide),
    (registry_membership [] (pyStr "a")).2.1 [pyStr "a"] (by decide)⟩

/-! Claims C5 and C6: payload assembly (_build_notification_data and
_build_fixed_notification_data). -/

/-- Validated service-call data for the notify service.  A key that is absent
from the call dict and a key bound to None behave identically in every check
the builder makes (attr in data and data[attr] is not None), so both are
modelled as none. -/
structure NotifyCallData where
  id : Option PyStr := none
  title : Option PyStr := none
  message : Option PyStr := none
  source : Option PyStr := none
  small_icon : Option PyStr := none
  small_icon_color : Option PyStr := none
  large_icon : Option PyStr := none
  media_type : Option PyStr := none
  media_url : Option PyStr := none
  corner : Option PyStr := none
  duration : Option Nat := none

/-- Validated service-call data for the notify_fixed service. -/
structure FixedCallData where
  id : Option PyStr := none
  visible : Option Bool := none
  message : Option PyStr := none
  shape : Option PyStr := none
  expiration : Option PyStr := none
  icon : Option PyStr := none
  message_color : Option PyStr := none
  icon_color : Option PyStr := none
  border_color : Option PyStr := none
  background_color : Option PyStr := none
  background_opacity : Option Nat := none

/-- Simple string field: copied when present and non-null. -/
def optStr (k : String) (v : Option PyStr) : Payload :=
  match v with
  | some s => [(pyStr k, PyVal.str s)]
  | none => []

/-- Simple integer field: copied when present and non-null. -/
def optNat (k : String) (v : Option Nat) : Payload :=
  match v with
  | some n => [(pyStr k, PyVal.intv n)]
  | none => []

/-- Simple boolean field: copied when present and non-null. -/
def optBool (k : String) (v : Option Bool) : Payload :=
  match v with
  | some b => [(pyStr k, PyVal.boolv b)]
  | none => []

/-- Field guarded by Python truthiness (if data[attr]): copied when present
and nonempty. -/
def truthyStr (k : String) (v : Option PyStr) : Payload :=
  match v with
  | some s => if s = [] then [] else [(pyStr k, PyVal.str s)]
  | none => []

/-- Color field: normalized, then emitted when the normalized result is
truthy. -/
def colorField (k : String) (v : Option PyStr) : Payload :=
  match normalizeHexColor v with
  | some col => if col = [] then [] else [(pyStr k, PyVal.str col)]
  | none => []

/-- Media resolution: exactly one of the image or video keys, only when a URL
is present (truthy) and the type is present (truthy) and not "none". -/
def mediaField (ty url : Option PyStr) : Payload :=
  match url, ty with
  | some u, some t =>
    if u ≠ [] ∧ t ≠ [] ∧ t ≠ pyStr "none" then
      if t = pyStr "image" then [(pyStr "image", PyVal.str u)]
      else if t = pyStr "video" then [(pyStr "video", PyVal.str u)]
      else []
    else []
  | _, _ => []

/-- Background color: when truthy, emitted through _hex_with_alpha with the
(possibly absent) background opacity. -/
def backgroundField (bg : Option PyStr) (op : Option Nat) : Payload :=
  match bg with
  | some s =>
    if s = [] then []
    else [(pyStr "backgroundColor",
      match hexWithAlpha (some s) op with
      | some hw => PyVal.str hw
      | none => PyVal.nonev)]
  | none => []

/-- Embedding of _build_notification_data: blocks appended in the source's
insertion order. -/
def buildNotificationData (d : NotifyCallData) : Payload :=
  optStr "id" d.id ++ optStr "title" d.title ++ optStr "message" d.message ++
  optStr "source" d.source ++ optStr "corner" d.corner ++
  optNat "duration" d.duration ++ truthyStr "smallIcon" d.small_icon ++
  colorField "smallIconColor" d.small_icon_color ++
  truthyStr "largeIcon" d.large_icon ++ mediaField d.media_type d.media_url

/-- Embedding of _build_fixed_notification_data. -/
def buildFixedNotificationData (d : FixedCallData) : Payload :=
  optStr "id" d.id ++ optBool "visible" d.visible ++
  optStr "message" d.message ++ optStr "shape" d.shape ++
  optStr "expiration" d.expiration ++ truthyStr "icon" d.icon ++
  colorField "messageColor" d.message_color ++
  colorField "iconColor" d.icon_color ++
  colorField "borderColor" d.border_color ++
  backgroundField d.background_color d.background_opacity

/-- A payload carries a key. -/
def hasKey (p : Payload) (k : PyStr) : Prop := ∃ v, (k, v) ∈ p

theorem mem_optStr {k : String} {o : Option PyStr} {p : PyStr} {v : PyVal}
    (h : (p, v) ∈ optStr k o) : p = pyStr k ∧ o ≠ none := by
  cases o with
  | none => simp [optStr] at h
  | some s =>
    simp [optStr] at h
    exact ⟨h.1, by simp⟩

theorem mem_optNat {k : String} {o : Option Nat} {p : PyStr} {v : PyVal}
    (h : (p, v) ∈ optNat k o) : p = pyStr k ∧ o ≠ none := by
  cases o with
  | none => simp [optNat] at h
  | some n =>
    simp [optNat] at h
    exact ⟨h.1, by simp⟩

theorem mem_optBool {k : String} {o : Option Bool} {p : PyStr} {v : PyVal}
    (h : (p, v) ∈ optBool k o) : p = pyStr k ∧ o ≠ none := by
  cases o with
  | none => simp [optBool] at h
  | some b =>
    simp [optBool] at h
    exact ⟨h.1, by simp⟩

theorem mem_truthyStr {k : String} {o : Option PyStr} {p : PyStr} {v : PyVal}
    (h : (p, v) ∈ truthyStr k o) : p = pyStr k ∧ ∃ s, o = some s ∧ s ≠ [] := by
  cases o with
  | none => simp [truthyStr] at h
  | some s =>
    rw [truthyStr] at h
    by_cases hs : s = []
    · rw [if_pos hs] at h
      simp at h
    · rw [if_neg hs] at h
      simp at h
      exact ⟨h.1, s, rfl, hs⟩

theorem normalizeHexColor_some_input {o : Option PyStr} {w : PyStr}
    (h : normalizeHexColor o = some w) : ∃ s, o = some s ∧ s ≠ [] := by
  cases o with
  | none => simp [normalizeHexColor] at h
  | some s =>
    refine ⟨s, rfl, ?_⟩
    intro he
    subst he
    simp [normalizeHexColor] at h

theorem mem_colorField {k : String} {o : Option PyStr} {p : PyStr} {v : PyVal}
    (h : (p, v) ∈ colorField k o) : p = pyStr k ∧ ∃ s, o = some s ∧ s ≠ [] := by
  rw [colorField] at h
  cases hn : normalizeHexColor o with
  | none =>
    rw [hn] at h
    simp at h
  | some col =>
    rw [hn] at h
    dsimp only at h
    by_cases hc : col = []
    · rw [if_pos hc] at h
      simp at h
    · rw [if_neg hc] at h
      simp at h
      exact ⟨h.1, normalizeHexColor_some_input hn⟩

theorem mem_mediaField {ty url : Option PyStr} {p : PyStr} {v : PyVal}
    (h : (p, v) ∈ mediaField ty url) :
    (p = pyStr "image" ∨ p = pyStr "video") ∧
      ∃ u t, url = some u ∧ u ≠ [] ∧ ty = some t ∧ t ≠ [] ∧ t ≠ pyStr "none" ∧
        (p = pyStr "image" → t = pyStr "image") ∧
        (p = pyStr "video" → t = pyStr "video") := by
  cases url with
  | none => cases ty <;> simp [mediaField] at h
  | some u =>
    cases ty with
    | none => simp [mediaField] at h
    | some t =>
      rw [mediaField] at h
      by_cases hc : u ≠ [] ∧ t ≠ [] ∧ t ≠ pyStr "none"
      · rw [if_pos hc] at h
        by_cases h1 : t = pyStr "image"
        · rw [if_pos h1] at h
          simp at h
          refine ⟨Or.inl h.1, u, t, rfl, hc.1, rfl, hc.2.1, hc.2.2,
            fun _ => h1, fun hk => absurd (h.1.symm.trans hk) (by decide)⟩
        · rw [if_neg h1] at h
          by_cases h2 : t = pyStr "video"
          · rw [if_pos h2] at h
            simp at h
            refine ⟨Or.inr h.1, u, t, rfl, hc.1, rfl, hc.2.1, hc.2.2,
              fun hk => absurd (h.1.symm.trans hk) (by decide), fun _ => h2⟩
          · rw [if_neg h2] at h
            simp at h
      · rw [if_neg hc] at h
        simp at h

theorem mem_backgroundField {bg : Option PyStr} {op : Option Nat} {p : PyStr}
    {v : PyVal} (h : (p, v) ∈ backgroundField bg op) :
    p = pyStr "backgroundColor" ∧ ∃ s, bg = some s ∧ s ≠ [] := by
  cases bg with
  | none => simp [backgroundField] at h
  | some s =>
    rw [backgroundField] at h
    by_cases hs : s = []
    · rw [if_pos hs] at h
      simp at h
    · rw [if_neg hs] at h
      simp at h
      exact ⟨h.1, s, rfl, hs⟩

theorem mem_buildNotificationData {d : NotifyCallData} {k : PyStr} {v : PyVal}
    (h : (k, v) ∈ buildNotificationData d) :
    (k = pyStr "id" ∧ d.id ≠ none) ∨
    (k = pyStr "title" ∧ d.title ≠ none) ∨
    (k = pyStr "message" ∧ d.message ≠ none) ∨
    (k = pyStr "source" ∧ d.source ≠ none) ∨
    (k = pyStr "corner" ∧ d.corner ≠ none) ∨
    (k = pyStr "duration" ∧ d.duration ≠ none) ∨
    (k = pyStr "smallIcon" ∧ ∃ s, d.small_icon = some s ∧ s ≠ []) ∨
    (k = pyStr "smallIconColor" ∧ ∃ s, d.small_icon_color = some s ∧ s ≠ []) ∨
    (k = pyStr "largeIcon" ∧ ∃ s, d.large_icon = some s ∧ s ≠ []) ∨
    ((k = pyStr "image" ∨ k = pyStr "video") ∧
      ∃ u t, d.media_url = some u ∧ u ≠ [] ∧ d.media_type = some t ∧
        t ≠ [] ∧ t ≠ pyStr "none" ∧
        (k = pyStr "image" → t = pyStr "image") ∧
        (k = pyStr "video" → t = pyStr "video")) := by
  rw [buildNotificationData] at h
  simp only [List.mem_append] at h
  rcases h with ((((((((h | h) | h) | h) | h) | h) | h) | h) | h) | h
  · exact Or.inl (mem_optStr h)
  · exact Or.inr (Or.inl (mem_optStr h))
  · exact Or.inr (Or.inr (Or.inl (mem_optStr h)))
  · exact Or.inr (Or.inr (Or.inr (Or.inl (mem_optStr h))))
  · exact Or.inr (Or.inr (Or.inr (Or.inr (Or.inl (mem_optStr h)))))
  · exact Or.inr (Or.inr (Or.inr (Or.inr (Or.inr (Or.inl (mem_optNat h))))))
  · exact Or.inr (Or.inr (Or.inr (Or.inr (Or.inr (Or.inr (Or.inl
      (mem_truthyStr h)))))))
  · exact Or.inr (Or.inr (Or.inr (Or.inr (Or.inr (Or.inr (Or.inr (Or.inl
      (mem_colorField h))))))))
  · exact Or.inr (Or.inr (Or.inr (Or.inr (Or.inr (Or.inr (Or.inr (Or.inr
      (Or.inl (mem_truthyStr h)))))))))
  · exact Or.inr (Or.inr (Or.inr (Or.inr (Or.inr (Or.inr (Or.inr (Or.inr
      (Or.inr (mem_mediaField h)))))))))

theorem mem_buildFixedNotificationData {d : FixedCallData} {k : PyStr}
    {v : PyVal} (h : (k, v) ∈ buildFixedNotificationData d) :
    (k = pyStr "id" ∧ d.id ≠ none) ∨
    (k = pyStr "visible" ∧ d.visible ≠ none) ∨
    (k = pyStr "message" ∧ d.message ≠ none) ∨
    (k = pyStr "shape" ∧ d.shape ≠ none) ∨
    (k = pyStr "expiration" ∧ d.expiration ≠ none) ∨
    (k = pyStr "icon" ∧ ∃ s, d.icon = some s ∧ s ≠ []) ∨
    (k = pyStr "messageColor" ∧ ∃ s, d.message_color = some s ∧ s ≠ []) ∨
    (k = pyStr "iconColor" ∧ ∃ s, d.icon_color = some s ∧ s ≠ []) ∨
    (k = pyStr "borderColor" ∧ ∃ s, d.border_color = some s ∧ s ≠ []) ∨
    (k = pyStr "backgroundColor" ∧ ∃ s, d.background_color = some s ∧ s ≠ []) := by
  rw [buildFixedNotificationData] at h
  simp only [List.mem_append] at h
  rcases h with ((((((((h | h) | h) | h) | h) | h) | h) | h) | h) | h
  · exact Or.inl (mem_optStr h)
  · exact Or.inr (Or.inl (mem_optBool h))
  · exact Or.inr (Or.inr (Or.inl (mem_optStr h)))
  · exact Or.inr (Or.inr (Or.inr (Or.inl (mem_optStr h))))
  · exact Or.inr (Or.inr (Or.inr (Or.inr (Or.inl (mem_optStr h)))))
  · exact Or.inr (Or.inr (Or.inr (Or.inr (Or.inr (Or.inl (mem_truthyStr h))))))
  · exact Or.inr (Or.inr (Or.inr (Or.inr (Or.inr (Or.inr (Or.inl
      (mem_colorField h)))))))
  · exact Or.inr (Or.inr (Or.inr (Or.inr (Or.inr (Or.inr (Or.inr (Or.inl
      (mem_colorField h))))))))
  · exact Or.inr (Or.inr (Or.inr (Or.inr (Or.inr (Or.inr (Or.inr (Or.inr
      (Or.inl (mem_colorField h)))))))))
  · exact Or.inr (Or.inr (Or.inr (Or.inr (Or.inr (Or.inr (Or.inr (Or.inr
      (Or.inr (mem_backgroundField h)))))))))

/-- Concrete calls used in the media-resolution examples. -/
def videoCall : NotifyCallData :=
  { media_type := some (pyStr "video"), media_url := some (pyStr "x.mp4") }

/-- Concrete call with media type none. -/
def noneMediaCall : NotifyCallData :=
  { media_type := some (pyStr "none"), media_url := some (pyStr "x.mp4") }

/-- Concrete call carrying only a title. -/
def titleOnlyCall : NotifyCallData := { title := some (pyStr "Hi") }

/-- C5: payload assembly resolves the media type/URL pair into exactly one of
the image or video keys (never both), only when the media URL is present
(truthy) and the media type is present and not "none"; a video pair yields
only the video key and a "none" type yields no media key at all. -/
theorem mediaResolution_correct (d : NotifyCallData) :
    ¬ (hasKey (buildNotificationData d) (pyStr "image") ∧
       hasKey (buildNotificationData d) (pyStr "video")) ∧
    ((hasKey (buildNotificationData d) (pyStr "image") ∨
      hasKey (buildNotificationData d) (pyStr "video")) →
      ∃ u t, d.media_url = some u ∧ u ≠ [] ∧ d.media_type = some t ∧
        t ≠ [] ∧ t ≠ pyStr "none") ∧
    buildNotificationData videoCall =
      [(pyStr "video", PyVal.str (pyStr "x.mp4"))] ∧
    buildNotificationData noneMediaCall = [] := by
  refine ⟨?_, ?_, by decide, by decide⟩
  · rintro ⟨⟨v1, h1⟩, ⟨v2, h2⟩⟩
    rcases mem_buildNotificationData h1 with h|h|h|h|h|h|h|h|h|
      ⟨_, u, t, _, _, ht, _, _, hki, _⟩
    · exact absurd h.1 (by decide)
    · exact absurd h.1 (by decide)
    · exact absurd h.1 (by decide)
    · exact absurd h.1 (by decide)
    · exact absurd h.1 (by decide)
    · exact absurd h.1 (by decide)
    · exact absurd h.1 (by decide)
    · exact absurd h.1 (by decide)
    · exact absurd h.1 (by decide)
    rcases mem_buildNotificationData h2 with g|g|g|g|g|g|g|g|g|
      ⟨_, u', t', _, _, ht', _, _, _, gkv⟩
    · exact absurd g.1 (by decide)
    · exact absurd g.1 (by decide)
    · exact absurd g.1 (by decide)
    · exact absurd g.1 (by decide)
    · exact absurd g.1 (by decide)
    · exact absurd g.1 (by decide)
    · exact absurd g.1 (by decide)
    · exact absurd g.1 (by decide)
    · exact absurd g.1 (by decide)
    have htt : t = t' := by
      have hs := ht.symm.trans ht'
      injection hs
    have h1i : t = pyStr "image" := hki rfl
    have h2v : t' = pyStr "video" := gkv rfl
    rw [h1i, h2v] at htt
    exact absurd htt (by decide)
  · rintro (⟨v, hv⟩ | ⟨v, hv⟩)
    · rcases mem_buildNotificationData hv with h|h|h|h|h|h|h|h|h|
        ⟨_, u, t, hu, hun, ht, htn, hnone, _, _⟩
      · exact absurd h.1 (by decide)
      · exact absurd h.1 (by decide)
      · exact absurd h.1 (by decide)
      · exact absurd h.1 (by decide)
      · exact absurd h.1 (by decide)
      · exact absurd h.1 (by decide)
      · exact absurd h.1 (by decide)
      · exact absurd h.1 (by decide)
      · exact absurd h.1 (by decide)
      exact ⟨u, t, hu, hun, ht, htn, hnone⟩
    · rcases mem_buildNotificationData hv with h|h|h|h|h|h|h|h|h|
        ⟨_, u, t, hu, hun, ht, htn, hnone, _, _⟩
      · exact absurd h.1 (by decide)
      · exact absurd h.1 (by decide)
      · exact absurd h.1 (by decide)
      · exact absurd h.1 (by decide)
      · exact absurd h.1 (by decide)
      · exact absurd h.1 (by decide)
      · exact absurd h.1 (by decide)
      · exact absurd h.1 (by decide)
      · exact absurd h.1 (by decide)
      exact ⟨u, t, hu, hun, ht, htn, hnone⟩

/-- Witness for C5: the video example has the video key, and the theorem then
yields the presence conditions. -/
theorem mediaResolution_correct_witness :
    ∃ u t, videoCall.media_url = some u ∧ u ≠ [] ∧
      videoCall.media_type = some t ∧ t ≠ [] ∧ t ≠ pyStr "none" :=
  (mediaResolution_correct videoCall).2.1
    (Or.inr ⟨PyVal.str (pyStr "x.mp4"), by decide⟩)

/-- C6: both payload builders omit every key whose source field is absent or
null (and, for truthiness-guarded fields, empty), injecting no defaults; the
input with only title "Hi" builds to exactly the singleton title payload. -/
theorem builders_omit_absent (d : NotifyCallData) (f : FixedCallData) :
    (d.id = none → ¬ hasKey (buildNotificationData d) (pyStr "id")) ∧
    (d.title = none → ¬ hasKey (buildNotificationData d) (pyStr "title")) ∧
    (d.message = none → ¬ hasKey (buildNotificationData d) (pyStr "message")) ∧
    (d.source = none → ¬ hasKey (buildNotificationData d) (pyStr "source")) ∧
    (d.corner = none → ¬ hasKey (buildNotificationData d) (pyStr "corner")) ∧
    (d.duration = none → ¬ hasKey (buildNotificationData d) (pyStr "duration")) ∧
    (d.small_icon = none → ¬ hasKey (buildNotificationData d) (pyStr "smallIcon")) ∧
    (d.small_icon_color = none →
      ¬ hasKey (buildNotificationData d) (pyStr "smallIconColor")) ∧
    (d.large_icon = none → ¬ hasKey (buildNotificationData d) (pyStr "largeIcon")) ∧
    (d.media_url = none → ¬ hasKey (buildNotificationData d) (pyStr "image") ∧
      ¬ hasKey (buildNotificationData d) (pyStr "video")) ∧
    (f.id = none → ¬ hasKey (buildFixedNotificationData f) (pyStr "id")) ∧
    (f.visible = none → ¬ hasKey (buildFixedNotificationData f) (pyStr "visible")) ∧
    (f.message = none → ¬ hasKey (buildFixedNotificationData f) (pyStr "message")) ∧
    (f.shape = none → ¬ hasKey (buildFixedNotificationData f) (pyStr "shape")) ∧
    (f.expiration = none →
      ¬ hasKey (buildFixedNotificationData f) (pyStr "expiration")) ∧
    (f.icon = none → ¬ hasKey (buildFixedNotificationData f) (pyStr "icon")) ∧
    (f.message_color = none →
      ¬ hasKey (buildFixedNotificationData f) (pyStr "messageColor")) ∧
    (f.icon_color = none →
      ¬ hasKey (buildFixedNotificationData f) (pyStr "iconColor")) ∧
    (f.border_color = none →
      ¬ hasKey (buildFixedNotificationData f) (pyStr "borderColor")) ∧
    (f.background_color = none →
      ¬ hasKey (buildFixedNotificationData f) (pyStr "backgroundColor")) ∧
    buildNotificationData titleOnlyCall =
      [(pyStr "title", PyVal.str (pyStr "Hi"))] := by
  refine ⟨?_, ?_, ?_, ?_, ?_, ?_, ?_, ?_, ?_, ?_, ?_, ?_, ?_, ?_, ?_, ?_, ?_,
    ?_, ?_, ?_, by decide⟩
  · intro hn
    rintro ⟨v, hv⟩
    rcases mem_buildNotificationData hv with h|h|h|h|h|h|h|h|h|h <;>
      first
        | exact absurd h.1 (by decide)
        | exact h.2 hn
  · intro hn
    rintro ⟨v, hv⟩
    rcases mem_buildNotificationData hv with h|h|h|h|h|h|h|h|h|h <;>
      first
        | exact absurd h.1 (by decide)
        | exact h.2 hn
  · intro hn
    rintro ⟨v, hv⟩
    rcases mem_buildNotificationData hv with h|h|h|h|h|h|h|h|h|h <;>
      first
        | exact absurd h.1 (by decide)
        | exact h.2 hn
  · intro hn
    rintro ⟨v, hv⟩
    rcases mem_buildNotificationData hv with h|h|h|h|h|h|h|h|h|h <;>
      first
        | exact absurd h.1 (by decide)
        | exact h.2 hn
  · intro hn
    rintro ⟨v, hv⟩
    rcases mem_buildNotificationData hv with h|h|h|h|h|h|h|h|h|h <;>
      first
        | exact absurd h.1 (by decide)
        | exact h.2 hn
  · intro hn
    rintro ⟨v, hv⟩
    rcases mem_buildNotificationData hv with h|h|h|h|h|h|h|h|h|h <;>
      first
        | exact absurd h.1 (by decide)
        | exact h.2 hn
  · intro hn
    rintro ⟨v, hv⟩
    rcases mem_buildNotificationData hv with h|h|h|h|h|h|h|h|h|h <;>
      first
        | exact absurd h.1 (by decide)
        | (rcases h.2 with ⟨s, hs, hsn⟩
           rw [hn] at hs
           exact Option.noConfusion hs)
  · intro hn
    rintro ⟨v, hv⟩
    rcases mem_buildNotificationData hv with h|h|h|h|h|h|h|h|h|h <;>
      first
        | exact absurd h.1 (by decide)
        | (rcases h.2 with ⟨s, hs, hsn⟩
           rw [hn] at hs
           exact Option.noConfusion hs)
  · intro hn
    rintro ⟨v, hv⟩
    rcases mem_buildNotificationData hv with h|h|h|h|h|h|h|h|h|h <;>
      first
        | exact absurd h.1 (by decide)
        | (rcases h.2 with ⟨s, hs, hsn⟩
           rw [hn] at hs
           exact Option.noConfusion hs)
  · intro hn
    constructor <;> rintro ⟨v, hv⟩ <;>
      rcases mem_buildNotificationData hv with h|h|h|h|h|h|h|h|h|h <;>
      first
        | exact absurd h.1 (by decide)
        | (rcases h.2 with ⟨u, t, hu, hrest⟩
           rw [hn] at hu
           exact Option.noConfusion hu)
  · intro hn
    rintro ⟨v, hv⟩
    rcases mem_buildFixedNotificationData hv with h|h|h|h|h|h|h|h|h|h <;>
      first
        | exact absurd h.1 (by decide)
        | exact h.2 hn
  · intro hn
    rintro ⟨v, hv⟩
    rcases mem_buildFixedNotificationData hv with h|h|h|h|h|h|h|h|h|h <;>
      first
        | exact absurd h.1 (by decide)
        | exact h.2 hn
  · intro hn
    rintro ⟨v, hv⟩
    rcases mem_buildFixedNotificationData hv with h|h|h|h|h|h|h|h|h|h <;>
      first
        | exact absurd h.1 (by decide)
        | exact h.2 hn
  · intro hn
    rintro ⟨v, hv⟩
    rcases mem_buildFixedNotificationData hv with h|h|h|h|h|h|h|h|h|h <;>
      first
        | exact absurd h.1 (by decide)
        | exact h.2 hn
  · intro hn
    rintro ⟨v, hv⟩
    rcases mem_buildFixedNotificationData hv with h|h|h|h|h|h|h|h|h|h <;>
      first
        | exact absurd h.1 (by decide)
        | exact h.2 hn
  · intro hn
    rintro ⟨v, hv⟩
    rcases mem_buildFixedNotificationData hv with h|h|h|h|h|h|h|h|h|h <;>
      first
        | exact absurd h.1 (by decide)
        | (rcases h.2 with ⟨s, hs, hsn⟩
           rw [hn] at hs
           exact Option.noConfusion hs)
  · intro hn
    rintro ⟨v, hv⟩
    rcases mem_buildFixedNotificationData hv with h|h|h|h|h|h|h|h|h|h <;>
      first
        | exact absurd h.1 (by decide)
        | (rcases h.2 with ⟨s, hs, hsn⟩
           rw [hn] at hs
           exact Option.noConfusion hs)
  · intro hn
    rintro ⟨v, hv⟩
    rcases mem_buildFixedNotificationData hv with h|h|h|h|h|h|h|h|h|h <;>
      first
        | exact absurd h.1 (by decide)
        | (rcases h.2 with ⟨s, hs, hsn⟩
           rw [hn] at hs
           exact Option.noConfusion hs)
  · intro hn
    rintro ⟨v, hv⟩
    rcases mem_buildFixedNotificationData hv with h|h|h|h|h|h|h|h|h|h <;>
      first
        | exact absurd h.1 (by decide)
        | (rcases h.2 with ⟨s, hs, hsn⟩
           rw [hn] at hs
           exact Option.noConfusion hs)
  · intro hn
    rintro ⟨v, hv⟩
    rcases mem_buildFixedNotificationData hv with h|h|h|h|h|h|h|h|h|h <;>
      first
        | exact absurd h.1 (by decide)
        | (rcases h.2 with ⟨s, hs, hsn⟩
           rw [hn] at hs
           exact Option.noConfusion hs)

/-- Witness for C6: with all fields absent, neither builder emits keys. -/
theorem builders_omit_absent_witness :
    ¬ hasKey (buildNotificationData {}) (pyStr "title") ∧
    ¬ hasKey (buildFixedNotificationData {}) (pyStr "backgroundColor") :=
  ⟨(builders_omit_absent {} {}).2.1 rfl,
    (builders_omit_absent {}
      {}).2.2.2.2.2.2.2.2.2.2.2.2.2.2.2.2.2.2.2.1 rfl⟩

end TvOverlay
